import Mathlib

/-! Verification of the pore-c-py core against its specification: SAM-flag
classification (`utils.py`), alignment-header construction and the
output-file existence check (`io/__init__.py`, `cli.py`), restriction-enzyme
digestion and per-group contact generation (modelled from the spec where the
corresponding modules are not part of the sources). -/

namespace PoreC

/-- Coarse alignment category, as the `AlignCategory` IntEnum of `utils.py`
(primary = 0, unmapped = 1, supplementary = 2, secondary = 3). -/
inductive AlignCategory where
  | primary
  | unmapped
  | supplementary
  | secondary
  deriving DecidableEq, Repr

/-- Numeric value of each category, mirroring the IntEnum values. -/
def AlignCategory.toNat : AlignCategory → Nat
  | .primary => 0
  | .unmapped => 1
  | .supplementary => 2
  | .secondary => 3

/-- Decoded SAM flag structure, one Bool per bit field, in the declaration
order of `SamFlags` in `utils.py`. -/
structure SamFlags where
  paired : Bool := false
  proper_pair : Bool := false
  unmap : Bool := false
  munmap : Bool := false
  reverse : Bool := false
  mreverse : Bool := false
  read1 : Bool := false
  read2 : Bool := false
  secondary : Bool := false
  qcfail : Bool := false
  dup : Bool := false
  supplementary : Bool := false
  deriving DecidableEq, Repr

/-- Encoding of the flag structure back to the bitmask: `SamFlags.to_int`
ORs in the `SamEnum` value of every field that is set, iterating the fields
in declaration order. -/
def SamFlags.to_int (f : SamFlags) : Nat :=
  let res : Nat := 0
  let res := if f.paired then res ||| 1 else res
  let res := if f.proper_pair then res ||| 2 else res
  let res := if f.unmap then res ||| 4 else res
  let res := if f.munmap then res ||| 8 else res
  let res := if f.reverse then res ||| 16 else res
  let res := if f.mreverse then res ||| 32 else res
  let res := if f.read1 then res ||| 64 else res
  let res := if f.read2 then res ||| 128 else res
  let res := if f.secondary then res ||| 256 else res
  let res := if f.qcfail then res ||| 512 else res
  let res := if f.dup then res ||| 1024 else res
  let res := if f.supplementary then res ||| 2048 else res
  res

/-- Decoding of a bitmask: each field is set iff `val & SamEnum[key].value`
is positive (`SamFlags.from_int` in `utils.py`). -/
def SamFlags.from_int (val : Nat) : SamFlags where
  paired := decide (0 < val &&& 1)
  proper_pair := decide (0 < val &&& 2)
  unmap := decide (0 < val &&& 4)
  munmap := decide (0 < val &&& 8)
  reverse := decide (0 < val &&& 16)
  mreverse := decide (0 < val &&& 32)
  read1 := decide (0 < val &&& 64)
  read2 := decide (0 < val &&& 128)
  secondary := decide (0 < val &&& 256)
  qcfail := decide (0 < val &&& 512)
  dup := decide (0 < val &&& 1024)
  supplementary := decide (0 < val &&& 2048)

/-- Copy of a flag structure (`SamFlags.copy`): rebuilds the structure from
its field values. -/
def SamFlags.copy (f : SamFlags) : SamFlags :=
  { paired := f.paired, proper_pair := f.proper_pair, unmap := f.unmap,
    munmap := f.munmap, reverse := f.reverse, mreverse := f.mreverse,
    read1 := f.read1, read2 := f.read2, secondary := f.secondary,
    qcfail := f.qcfail, dup := f.dup, supplementary := f.supplementary }

/-- Derived primary flag: `not (secondary | supplementary)`. -/
def SamFlags.primary (f : SamFlags) : Bool :=
  !(f.secondary || f.supplementary)

/-- Derived category with precedence secondary, then supplementary, then
unmapped, then primary (`SamFlags.category`). -/
def SamFlags.category (f : SamFlags) : AlignCategory :=
  if f.secondary then .secondary
  else if f.supplementary then .supplementary
  else if f.unmap then .unmapped
  else .primary

/-- Derived strand (`SamFlags.strand`): "." when unmapped, "-" when
reverse-complemented, "+" otherwise. -/
def SamFlags.strand (f : SamFlags) : String :=
  if f.unmap then "."
  else if f.reverse then "-"
  else "+"

/-- Memoized strand lookup (`SamFlags.int_to_strand`); the lru_cache is
behaviour-transparent, so it is the composite of decoding and `strand`. -/
def SamFlags.int_to_strand (flag : Nat) : String :=
  (SamFlags.from_int flag).strand

/-- Memoized category lookup (`SamFlags.int_to_category`). -/
def SamFlags.int_to_category (flag : Nat) : AlignCategory :=
  (SamFlags.from_int flag).category

/-- Bridge between the positivity test used by `from_int` and `Nat.testBit`. -/
theorem and_pos_iff_testBit (v k : Nat) :
    decide (0 < v &&& 2 ^ k) = v.testBit k := by
  rw [Nat.and_two_pow]
  cases h : v.testBit k <;> simp [h, Nat.pos_pow_of_pos]

/-- C2: for every mapping-status bitmask, the derived category follows the
precedence secondary > supplementary > unmapped > primary: bit 8 (value 256)
set gives secondary regardless of the other bits, otherwise bit 11
(value 2048) gives supplementary, otherwise bit 2 (value 4) gives unmapped,
otherwise the category is primary. -/
theorem category_precedence (v : Nat) :
    (SamFlags.from_int v).category =
      if v.testBit 8 then AlignCategory.secondary
      else if v.testBit 11 then AlignCategory.supplementary
      else if v.testBit 2 then AlignCategory.unmapped
      else AlignCategory.primary := by
  have h8 := and_pos_iff_testBit v 8
  have h11 := and_pos_iff_testBit v 11
  have h2 := and_pos_iff_testBit v 2
  norm_num at h8 h11 h2
  simp only [SamFlags.from_int, SamFlags.category, h8, h11, h2]

/-- C5: for every mapping-status bitmask the derived strand is one of
"+", "-", "."; it is "." whenever the unmapped bit (value 4) is set
regardless of the reverse bit (value 16), "-" when the reverse bit is set
and the unmapped bit is not, and "+" otherwise. -/
theorem strand_total_spec (v : Nat) :
    ((SamFlags.from_int v).strand = "." ∨ (SamFlags.from_int v).strand = "-"
      ∨ (SamFlags.from_int v).strand = "+")
    ∧ (SamFlags.from_int v).strand =
        (if v.testBit 2 then "." else if v.testBit 4 then "-" else "+") := by
  have h2 := and_pos_iff_testBit v 2
  have h4 := and_pos_iff_testBit v 4
  norm_num at h2 h4
  constructor
  · simp only [SamFlags.from_int, SamFlags.strand]
    by_cases hu : v.testBit 2 <;> by_cases hr : v.testBit 4 <;>
      simp [h2, h4, hu, hr]
  · simp only [SamFlags.from_int, SamFlags.strand, h2, h4]

/-- Bridge between `from_int`'s positivity test at a literal bit value and
`Nat.testBit` at the corresponding bit index. -/
theorem and_pos_lit_testBit (v k p : Nat) (hp : p = 2 ^ k) :
    decide (0 < v &&& p) = v.testBit k := by
  subst hp
  exact and_pos_iff_testBit v k

/-- Decoding a bitmask reads exactly the low twelve bits. -/
theorem from_int_fields (v : Nat) :
    SamFlags.from_int v =
      { paired := v.testBit 0, proper_pair := v.testBit 1,
        unmap := v.testBit 2, munmap := v.testBit 3,
        reverse := v.testBit 4, mreverse := v.testBit 5,
        read1 := v.testBit 6, read2 := v.testBit 7,
        secondary := v.testBit 8, qcfail := v.testBit 9,
        dup := v.testBit 10, supplementary := v.testBit 11 } := by
  have h0 := and_pos_lit_testBit v 0 1 (by norm_num)
  have h1 := and_pos_lit_testBit v 1 2 (by norm_num)
  have h2 := and_pos_lit_testBit v 2 4 (by norm_num)
  have h3 := and_pos_lit_testBit v 3 8 (by norm_num)
  have h4 := and_pos_lit_testBit v 4 16 (by norm_num)
  have h5 := and_pos_lit_testBit v 5 32 (by norm_num)
  have h6 := and_pos_lit_testBit v 6 64 (by norm_num)
  have h7 := and_pos_lit_testBit v 7 128 (by norm_num)
  have h8 := and_pos_lit_testBit v 8 256 (by norm_num)
  have h9 := and_pos_lit_testBit v 9 512 (by norm_num)
  have h10 := and_pos_lit_testBit v 10 1024 (by norm_num)
  have h11 := and_pos_lit_testBit v 11 2048 (by norm_num)
  simp only [SamFlags.from_int, h0, h1, h2, h3, h4, h5, h6, h7, h8, h9, h10, h11]

/-- Conditional OR-accumulation step rewritten as an OR with a conditional
summand. -/
theorem or_cond (x v : Nat) (b : Bool) :
    (if b then x ||| v else x) = x ||| (if b then v else 0) := by
  cases b <;> simp

/-- Bit test of a conditional power of two. -/
theorem cond_two_pow_testBit (b : Bool) (k j : Nat) :
    (if b then 2 ^ k else 0).testBit j = (b && decide (k = j)) := by
  cases b <;> simp [Nat.testBit_two_pow, Nat.zero_testBit]

/-- Encoding as a flat OR of conditional bit values. -/
theorem to_int_or_form (f : SamFlags) :
    f.to_int =
      (if f.paired then 2 ^ 0 else 0) ||| (if f.proper_pair then 2 ^ 1 else 0)
      ||| (if f.unmap then 2 ^ 2 else 0) ||| (if f.munmap then 2 ^ 3 else 0)
      ||| (if f.reverse then 2 ^ 4 else 0) ||| (if f.mreverse then 2 ^ 5 else 0)
      ||| (if f.read1 then 2 ^ 6 else 0) ||| (if f.read2 then 2 ^ 7 else 0)
      ||| (if f.secondary then 2 ^ 8 else 0) ||| (if f.qcfail then 2 ^ 9 else 0)
      ||| (if f.dup then 2 ^ 10 else 0)
      ||| (if f.supplementary then 2 ^ 11 else 0) := by
  simp only [SamFlags.to_int, or_cond, Nat.zero_or]
  norm_num

/-- Decode-then-encode clears every bit above the supplementary bit. -/
theorem to_int_from_int (v : Nat) :
    (SamFlags.from_int v).to_int = v % 4096 := by
  rw [from_int_fields, to_int_or_form]
  apply Nat.eq_of_testBit_eq
  intro j
  have h4096 : (4096 : Nat) = 2 ^ 12 := by norm_num
  rw [h4096, Nat.testBit_mod_two_pow]
  simp only [Nat.testBit_or, cond_two_pow_testBit]
  rcases Nat.lt_or_ge j 12 with hj | hj
  · interval_cases j <;> simp
  · have hne : ∀ k : Nat, k < 12 → decide (k = j) = false := by
      intro k hk
      simp only [decide_eq_false_iff_not]
      omega
    have hlt : decide (j < 12) = false := by
      simp only [decide_eq_false_iff_not]
      omega
    simp [hne 0 (by norm_num), hne 1 (by norm_num), hne 2 (by norm_num),
      hne 3 (by norm_num), hne 4 (by norm_num), hne 5 (by norm_num),
      hne 6 (by norm_num), hne 7 (by norm_num), hne 8 (by norm_num),
      hne 9 (by norm_num), hne 10 (by norm_num), hne 11 (by norm_num), hlt]

/-- C6: decoding a bitmask into the flag structure and re-encoding it is the
identity on the 12-bit flag domain: for every v with 0 <= v < 4096 the
round trip gives back v, and for arbitrary v it gives v with the bits above
the supplementary bit (value 2048) cleared, that is v mod 4096. -/
theorem from_int_to_int_roundtrip :
    (∀ v : Fin 4096, (SamFlags.from_int v.val).to_int = v.val)
    ∧ ∀ v : Nat, (SamFlags.from_int v).to_int = v % 4096 := by
  refine ⟨fun v => ?_, to_int_from_int⟩
  rw [to_int_from_int, Nat.mod_eq_of_lt v.isLt]

/-- C7: classification of a mapping-status bitmask is deterministic: two
invocations on the same bitmask yield identical decoded flags, categories
and strands, with no dependence on any other state, and the memoized
integer-level lookups agree with direct decoding. -/
theorem classification_deterministic (v w : Nat) (h : v = w) :
    (SamFlags.from_int v = SamFlags.from_int w
      ∧ (SamFlags.from_int v).category = (SamFlags.from_int w).category
      ∧ SamFlags.int_to_strand v = SamFlags.int_to_strand w
      ∧ SamFlags.int_to_category v = SamFlags.int_to_category w)
    ∧ SamFlags.int_to_strand v = (SamFlags.from_int v).strand
    ∧ SamFlags.int_to_category v = (SamFlags.from_int v).category := by
  subst h
  exact ⟨⟨rfl, rfl, rfl, rfl⟩, rfl, rfl⟩

/-- Witness for C7: two classification calls on the concrete bitmask 20
agree in every derived component. -/
theorem classification_deterministic_witness :
    (20 : Nat) = 20
    ∧ ((SamFlags.from_int 20 = SamFlags.from_int 20
        ∧ (SamFlags.from_int 20).category = (SamFlags.from_int 20).category
        ∧ SamFlags.int_to_strand 20 = SamFlags.int_to_strand 20
        ∧ SamFlags.int_to_category 20 = SamFlags.int_to_category 20)
      ∧ SamFlags.int_to_strand 20 = (SamFlags.from_int 20).strand
      ∧ SamFlags.int_to_category 20 = (SamFlags.from_int 20).category) :=
  ⟨rfl, classification_deterministic 20 20 rfl⟩

/-- C9: the `primary` flag exposed on the decoded structure is true iff
neither the secondary bit (value 256) nor the supplementary bit
(value 2048) is set; in particular it is true for an unmapped record
(bitmask 4), whose category is unmapped and not primary, so
`flags.primary = true` does not imply `category = primary`. -/
theorem primary_flag_spec :
    (∀ v : Nat, (SamFlags.from_int v).primary
        = (!(v.testBit 8) && !(v.testBit 11)))
    ∧ (SamFlags.from_int 4).primary = true
    ∧ (SamFlags.from_int 4).category = AlignCategory.unmapped
    ∧ ¬ (∀ f : SamFlags, f.primary = true
          → f.category = AlignCategory.primary) := by
  refine ⟨fun v => ?_, by decide, by decide, fun h => ?_⟩
  · have h8 := and_pos_iff_testBit v 8
    have h11 := and_pos_iff_testBit v 11
    norm_num at h8 h11
    simp only [SamFlags.from_int, SamFlags.primary, h8, h11, Bool.not_or]
  · have := h (SamFlags.from_int 4) (by decide)
    simp only [SamFlags.from_int] at this
    exact absurd this (by decide)

/-- Last component of a path: the text after the final slash, as pathlib's
name attribute. -/
def lastComponent (cs : List Char) : List Char :=
  cs.foldl (fun acc c => if c = '/' then [] else acc ++ [c]) []

/-- Index of the last dot in a file name, if any. -/
def lastDotIdx (cs : List Char) : Option Nat :=
  ((cs.enum.filter fun q => q.2 == '.').getLast?).map Prod.fst

/-- Suffix of a path under pathlib's rule: the final component's substring
from its last dot, provided that dot is neither the first nor the last
character of the component; otherwise the empty string. -/
def path_suffix (p : String) : String :=
  let name := lastComponent p.toList
  match lastDotIdx name with
  | none => ""
  | some i =>
    if 0 < i ∧ i < name.length - 1 then String.mk (name.drop i) else ""

/-- Suffixes recognised as alignment files by get_alignment_header. -/
def alignSuffixes : List String := [".bam", ".sam", ".cram"]

/-- Errors surfaced at the boundary: the bare IOError of parse_bam's output
check, the NotImplementedError raised for too many source headers, and the
UnsupportedEnzyme failure of cutter construction. -/
inductive PCError where
  | ioError
  | tooManyBams (files : List String)
  | unsupportedEnzyme (name : String)
  deriving DecidableEq, Repr

/-- Alignment header value: the pysam AlignmentHeader is opaque here; what
matters is which inputs contributed to it (a source alignment file, a
reference fasta, or neither, giving the default header). -/
inductive AlignmentHeader where
  | defaultHeader
  | ofData (fromSource : Option String) (fromRef : Option String)
  deriving DecidableEq, Repr

/-- Alignment-format files among the source files, as the filter on
suffixes in get_alignment_header (io/init). -/
def bamsOf (source_files : List String) : List String :=
  source_files.filter fun f => alignSuffixes.contains (path_suffix f)

/-- get_alignment_header from io/init: with exactly one alignment-format
source file its header is used, with more than one a NotImplementedError
(too many bams) is raised, with none and no reference fasta the default
header is returned. -/
def get_alignment_header (source_files : List String)
    (reference_fasta : Option String) : Except PCError AlignmentHeader := do
  let bams := bamsOf source_files
  let dataSource : Option String ←
    if source_files.isEmpty then pure none
    else if bams.length = 1 then pure (some (bams.headD ""))
    else if 1 < bams.length then throw (.tooManyBams bams)
    else pure none
  let dataRef : Option String := reference_fasta
  if dataSource = none ∧ dataRef = none then
    pure .defaultHeader
  else
    pure (.ofData dataSource dataRef)

/-- Modelled from the spec: the AnnotatedMonomerFC file collection is
declared in the io module, which is not among the sources; its four output
fields are the ones parse_bam (cli.py) toggles, and the name-sorted and
paired-end default names appear in tests/test_cli.py. Each field holds the
default path formatted with the output prefix, or none when dropped. -/
structure AnnotatedMonomerFC where
  namesorted_bam : Option String
  paired_end_bam : Option String
  chromunity_parquet : Option String
  summary_json : Option String
  deriving DecidableEq, Repr

/-- Default output path of each AnnotatedMonomerFC field for a given
output prefix (templates modelled from the test suite's file names). -/
def fcDefaultPath (field pre : String) : String :=
  if field = "namesorted_bam" then pre ++ ".ns.bam"
  else if field = "paired_end_bam" then pre ++ ".pe.bam"
  else if field = "chromunity_parquet" then pre ++ ".chromunity.parquet"
  else pre ++ ".summary.json"

/-- FileCollection.with_prefix (utils.py) specialised to AnnotatedMonomerFC:
every dropped field is set to none, every other field receives its default
path formatted with the output prefix. -/
def fcPrefixed (pre : String) (drop : List String) : AnnotatedMonomerFC where
  namesorted_bam :=
    if drop.contains "namesorted_bam" then none
    else some (fcDefaultPath "namesorted_bam" pre)
  paired_end_bam :=
    if drop.contains "paired_end_bam" then none
    else some (fcDefaultPath "paired_end_bam" pre)
  chromunity_parquet :=
    if drop.contains "chromunity_parquet" then none
    else some (fcDefaultPath "chromunity_parquet" pre)
  summary_json :=
    if drop.contains "summary_json" then none
    else some (fcDefaultPath "summary_json" pre)

/-- FileCollection.items: the field name / path pairs in declaration
order. -/
def AnnotatedMonomerFC.items (fc : AnnotatedMonomerFC) :
    List (String × Option String) :=
  [("namesorted_bam", fc.namesorted_bam),
   ("paired_end_bam", fc.paired_end_bam),
   ("chromunity_parquet", fc.chromunity_parquet),
   ("summary_json", fc.summary_json)]

/-- FileCollection.existing: the non-none paths that exist on the
filesystem, which is abstracted as a predicate on paths. -/
def AnnotatedMonomerFC.existing (fc : AnnotatedMonomerFC)
    (fs : String → Bool) : List (String × String) :=
  fc.items.filterMap fun kv =>
    match kv.2 with
    | none => none
    | some path => if fs path then some (kv.1, path) else none

/-- FileCollection.exists_any: true iff at least one non-none path
exists. -/
def AnnotatedMonomerFC.exists_any (fc : AnnotatedMonomerFC)
    (fs : String → Bool) : Bool :=
  decide (0 < (fc.existing fs).length)

/-- Pipeline stages of parse_bam, in the order they appear in cli.py:
output-existence check, header construction, reading monomer alignments,
grouping/annotating them, writing the outputs. -/
inductive Stage where
  | checkOutputs
  | buildHeader
  | readAligns
  | groupAligns
  | writeOutput
  deriving DecidableEq, Repr

/-- Output kinds dropped by parse_bam: each of the four flags that is not
set contributes its file key to the drop list. -/
def dropOutputsOf (monomers paired_end chromunity summary : Bool) :
    List String :=
  (if monomers then [] else ["namesorted_bam"])
  ++ (if paired_end then [] else ["paired_end_bam"])
  ++ (if chromunity then [] else ["chromunity_parquet"])
  ++ (if summary then [] else ["summary_json"])

/-- Control skeleton of parse_bam (cli.py lines 110-161), recording which
stages run and which error, if any, aborts the run: the output-existence
check precedes header construction, which precedes reading and grouping of
alignment records. -/
def parse_bam_core (input_files : List String) (pre : String)
    (force monomers paired_end chromunity summary : Bool)
    (fs : String → Bool) : List Stage × Option PCError :=
  let drop_outputs := dropOutputsOf monomers paired_end chromunity summary
  let output_files := fcPrefixed pre drop_outputs
  if output_files.exists_any fs && !force then
    ([.checkOutputs], some .ioError)
  else
    match get_alignment_header input_files none with
    | .error e => ([.checkOutputs, .buildHeader], some e)
    | .ok _ =>
      ([.checkOutputs, .buildHeader, .readAligns, .groupAligns, .writeOutput],
        none)

/-- parse_bam hands the singleton list containing its bam argument to the
pipeline as input_files. -/
def parse_bam (bam : String) (pre : String)
    (force monomers paired_end chromunity summary : Bool)
    (fs : String → Bool) : List Stage × Option PCError :=
  parse_bam_core [bam] pre force monomers paired_end chromunity summary fs

/-- Header construction fails with the too-many-bams error whenever more
than one alignment-format file is among the source files, regardless of
the reference fasta argument. -/
theorem get_alignment_header_too_many (files : List String)
    (ref : Option String) (h : 1 < (bamsOf files).length) :
    get_alignment_header files ref = .error (.tooManyBams (bamsOf files)) := by
  have hne : files.isEmpty = false := by
    cases files with
    | nil => simp [bamsOf] at h
    | cons a l => rfl
  have h1 : ¬ (bamsOf files).length = 1 := by omega
  simp [get_alignment_header, hne, h1, h, Bind.bind, Except.bind, throw,
    throwThe, MonadExceptOf.throw]

/-- C3: when the source files handed to header construction contain more
than one alignment-format file (suffix .bam, .sam or .cram), the operation
fails with the NotImplemented too-many-source-headers error, and in the
parse_bam pipeline a run that is not stopped by the earlier output check is
aborted at header construction, before the stages that read or group
alignment records are reached. -/
theorem too_many_source_headers (files : List String) (ref : Option String)
    (h : 1 < (bamsOf files).length) :
    get_alignment_header files ref = .error (.tooManyBams (bamsOf files))
    ∧ ∀ pre force m p c s fs,
        (parse_bam_core files pre force m p c s fs).2 ≠ some .ioError →
        Stage.readAligns ∉ (parse_bam_core files pre force m p c s fs).1
        ∧ Stage.groupAligns ∉ (parse_bam_core files pre force m p c s fs).1 := by
  refine ⟨get_alignment_header_too_many files ref h, ?_⟩
  intro pre force m p c s fs hio
  unfold parse_bam_core
  by_cases hc :
      ((fcPrefixed pre (dropOutputsOf m p c s)).exists_any fs && !force) = true
  · exfalso
    apply hio
    simp [parse_bam_core, hc]
  · simp [hc, get_alignment_header_too_many files none h]

/-- Witness for C3: two alignment-format files among the sources make
header construction fail with the too-many-bams error. -/
theorem too_many_source_headers_witness :
    1 < (bamsOf ["a.bam", "b.sam"]).length
    ∧ get_alignment_header ["a.bam", "b.sam"] none
        = .error (.tooManyBams (bamsOf ["a.bam", "b.sam"])) :=
  ⟨by decide, (too_many_source_headers ["a.bam", "b.sam"] none (by decide)).1⟩

/-- Positivity of the length of the existing-paths list, as a disjunction
over the items. -/
theorem pos_filterMap_existing (fs : String → Bool) :
    ∀ l : List (String × Option String),
      decide (0 < (l.filterMap fun kv =>
        match kv.2 with
        | none => none
        | some path => if fs path then some (kv.1, path) else none).length)
      = l.any fun kv => kv.2.elim false fs := by
  intro l
  induction l with
  | nil => simp
  | cons a t ih =>
    obtain ⟨k, o⟩ := a
    cases o with
    | none => simpa using ih
    | some path =>
      cases hf : fs path <;> simp [List.filterMap_cons, hf, ih]

/-- exists_any over the four fields as an OR of per-field existence
checks, where a none field contributes false. -/
theorem exists_any_or_form (fc : AnnotatedMonomerFC) (fs : String → Bool) :
    fc.exists_any fs =
      (fc.namesorted_bam.elim false fs || fc.paired_end_bam.elim false fs
       || fc.chromunity_parquet.elim false fs
       || fc.summary_json.elim false fs) := by
  rw [AnnotatedMonomerFC.exists_any, AnnotatedMonomerFC.existing,
    pos_filterMap_existing]
  simp [AnnotatedMonomerFC.items, Bool.or_assoc]

/-- Existence check of a conditionally dropped field. -/
theorem elim_ite_none (b : Bool) (x : String) (fs : String → Bool) :
    (Option.elim (if b = true then none else some x) false fs)
      = (!b && fs x) := by
  cases b <;> simp

/-- Concrete default path of each field. -/
theorem fcDefaultPath_names (pre : String) :
    fcDefaultPath "namesorted_bam" pre = pre ++ ".ns.bam"
    ∧ fcDefaultPath "paired_end_bam" pre = pre ++ ".pe.bam"
    ∧ fcDefaultPath "chromunity_parquet" pre = pre ++ ".chromunity.parquet"
    ∧ fcDefaultPath "summary_json" pre = pre ++ ".summary.json" :=
  ⟨rfl, rfl, rfl, rfl⟩

/-- exists_any of a prefixed collection only consults the non-dropped
fields. -/
theorem exists_any_prefixed (pre : String) (drop : List String)
    (fs : String → Bool) :
    (fcPrefixed pre drop).exists_any fs =
      ((!drop.contains "namesorted_bam" && fs (pre ++ ".ns.bam"))
       || (!drop.contains "paired_end_bam" && fs (pre ++ ".pe.bam"))
       || (!drop.contains "chromunity_parquet"
            && fs (pre ++ ".chromunity.parquet"))
       || (!drop.contains "summary_json" && fs (pre ++ ".summary.json"))) := by
  obtain ⟨e1, e2, e3, e4⟩ := fcDefaultPath_names pre
  rw [exists_any_or_form]
  show (Option.elim _ false fs || Option.elim _ false fs
    || Option.elim _ false fs || Option.elim _ false fs) = _
  rw [fcPrefixed]
  simp only [elim_ite_none, e1, e2, e3, e4]

/-- Membership key of each output kind in the drop list computed from the
four request flags. -/
theorem contains_dropOutputs (m p c s : Bool) :
    (dropOutputsOf m p c s).contains "namesorted_bam" = !m
    ∧ (dropOutputsOf m p c s).contains "paired_end_bam" = !p
    ∧ (dropOutputsOf m p c s).contains "chromunity_parquet" = !c
    ∧ (dropOutputsOf m p c s).contains "summary_json" = !s := by
  cases m <;> cases p <;> cases c <;> cases s <;>
    refine ⟨?_, ?_, ?_, ?_⟩ <;> decide

/-- Header construction never fails on the singleton input list parse_bam
hands it: at most one alignment-format file can be among one file. -/
theorem parse_bam_header_ok (bam : String) :
    ∃ hd, get_alignment_header [bam] none = .ok hd := by
  have hlen : (bamsOf [bam]).length ≤ 1 := by
    simpa [bamsOf] using List.length_filter_le _ [bam]
  by_cases h1 : (bamsOf [bam]).length = 1
  · simp [get_alignment_header, h1, Bind.bind, Except.bind, Pure.pure,
      Except.pure]
  · have h0 : ¬ 1 < (bamsOf [bam]).length := by omega
    simp [get_alignment_header, h1, h0, Bind.bind, Except.bind, Pure.pure,
      Except.pure]

/-- C10: parse_bam raises IOError iff at least one requested (non-dropped)
output path already exists and force is false; when it does, only the
output check has run, so no input record has been read; unrequested output
kinds are set to none by the prefix constructor and ignored by the
existence check, so a pre-existing file for an unrequested output never
triggers the error. -/
theorem parse_bam_output_check (bam pre : String)
    (force m p c s : Bool) (fs : String → Bool) :
    ((parse_bam bam pre force m p c s fs).2 = some .ioError
      ↔ (force = false
          ∧ ((m = true ∧ fs (pre ++ ".ns.bam") = true)
            ∨ (p = true ∧ fs (pre ++ ".pe.bam") = true)
            ∨ (c = true ∧ fs (pre ++ ".chromunity.parquet") = true)
            ∨ (s = true ∧ fs (pre ++ ".summary.json") = true))))
    ∧ ((parse_bam bam pre force m p c s fs).2 = some .ioError
        → (parse_bam bam pre force m p c s fs).1 = [Stage.checkOutputs])
    ∧ ((m = false
          → (fcPrefixed pre (dropOutputsOf m p c s)).namesorted_bam = none)
      ∧ (p = false
          → (fcPrefixed pre (dropOutputsOf m p c s)).paired_end_bam = none)
      ∧ (c = false
          → (fcPrefixed pre (dropOutputsOf m p c s)).chromunity_parquet = none)
      ∧ (s = false
          → (fcPrefixed pre (dropOutputsOf m p c s)).summary_json = none)) := by
  obtain ⟨hd, hhd⟩ := parse_bam_header_ok bam
  obtain ⟨hm, hp, hc, hs⟩ := contains_dropOutputs m p c s
  have hex := exists_any_prefixed pre (dropOutputsOf m p c s) fs
  rw [hm, hp, hc, hs] at hex
  simp only [Bool.not_not] at hex
  have hexP : (fcPrefixed pre (dropOutputsOf m p c s)).exists_any fs = true
      ↔ ((m = true ∧ fs (pre ++ ".ns.bam") = true)
        ∨ (p = true ∧ fs (pre ++ ".pe.bam") = true)
        ∨ (c = true ∧ fs (pre ++ ".chromunity.parquet") = true)
        ∨ (s = true ∧ fs (pre ++ ".summary.json") = true)) := by
    rw [hex]
    simp only [Bool.or_eq_true, Bool.and_eq_true, or_assoc]
  have hres : parse_bam bam pre force m p c s fs
      = if ((fcPrefixed pre (dropOutputsOf m p c s)).exists_any fs && !force)
            = true
        then ([Stage.checkOutputs], some .ioError)
        else ([Stage.checkOutputs, Stage.buildHeader, Stage.readAligns,
               Stage.groupAligns, Stage.writeOutput], none) := by
    by_cases hb : ((fcPrefixed pre (dropOutputsOf m p c s)).exists_any fs
        && !force) = true
    · rw [if_pos hb]
      rw [parse_bam, parse_bam_core]
      simp only [hb, if_true]
    · rw [if_neg hb]
      rw [parse_bam, parse_bam_core]
      simp only [Bool.not_eq_true] at hb
      simp only [hb, Bool.false_eq_true, if_false, hhd]
  refine ⟨?_, ?_, ?_⟩
  · rw [hres]
    by_cases hb : ((fcPrefixed pre (dropOutputsOf m p c s)).exists_any fs
        && !force) = true
    · rw [if_pos hb]
      rw [Bool.and_eq_true] at hb
      obtain ⟨hb1, hb2⟩ := hb
      rw [Bool.not_eq_true'] at hb2
      exact ⟨fun _ => ⟨hb2, hexP.mp hb1⟩, fun _ => rfl⟩
    · rw [if_neg hb]
      constructor
      · intro hcon
        exact absurd hcon (by simp)
      · intro hrhs
        exfalso
        apply hb
        rw [Bool.and_eq_true, Bool.not_eq_true']
        exact ⟨hexP.mpr hrhs.2, hrhs.1⟩
  · rw [hres]
    by_cases hb : ((fcPrefixed pre (dropOutputsOf m p c s)).exists_any fs
        && !force) = true
    · rw [if_pos hb]
      intro _
      rfl
    · rw [if_neg hb]
      intro hio
      exact absurd hio (by simp)
  · refine ⟨fun h => ?_, fun h => ?_, fun h => ?_, fun h => ?_⟩ <;>
      · subst h
        simp [fcPrefixed, dropOutputsOf]

/-- Modelled from the spec: the recognition model (RecognitionMatcher,
EnzymeCutter, ConcatemerDigester) lives in the model module, which is not
among the sources; definitions in this section follow sections 3 and 4.1-4.3
of the specification. IUPAC ambiguity codes resolve to fixed subsets of the
four bases; an unsupported code resolves to none. -/
def resolveBase (c : Char) : Option (List Char) :=
  match c.toUpper with
  | 'A' => some ['A']
  | 'C' => some ['C']
  | 'G' => some ['G']
  | 'T' => some ['T']
  | 'R' => some ['A', 'G']
  | 'Y' => some ['C', 'T']
  | 'S' => some ['C', 'G']
  | 'W' => some ['A', 'T']
  | 'K' => some ['G', 'T']
  | 'M' => some ['A', 'C']
  | 'B' => some ['C', 'G', 'T']
  | 'D' => some ['A', 'G', 'T']
  | 'H' => some ['A', 'C', 'T']
  | 'V' => some ['A', 'C', 'G']
  | 'N' => some ['A', 'C', 'G', 'T']
  | _ => none

/-- Watson-Crick complement of a base or ambiguity code. -/
def complementBase (c : Char) : Char :=
  match c.toUpper with
  | 'A' => 'T'
  | 'T' => 'A'
  | 'C' => 'G'
  | 'G' => 'C'
  | 'R' => 'Y'
  | 'Y' => 'R'
  | 'K' => 'M'
  | 'M' => 'K'
  | 'B' => 'V'
  | 'V' => 'B'
  | 'D' => 'H'
  | 'H' => 'D'
  | other => other

/-- Enzyme datum: name, recognition pattern over bases plus ambiguity
codes, and the cut offset, which is none for enzyme families whose cut
position cannot be resolved. -/
structure Enzyme where
  name : String
  pattern : List Char
  cut_offset : Option Int
  deriving DecidableEq, Repr

/-- Modelled from the spec: the fixed enzyme registry (the sources rely on
an external restriction-enzyme catalogue); it holds the enzymes the spec
and the test suite name, with AloI as an enzyme whose cut position is not
resolvable. -/
def enzyme_registry : List Enzyme :=
  [⟨"NlaIII", ['C', 'A', 'T', 'G'], some 4⟩,
   ⟨"EcoRI", ['G', 'A', 'A', 'T', 'T', 'C'], some 1⟩,
   ⟨"HindIII", ['A', 'A', 'G', 'C', 'T', 'T'], some 1⟩,
   ⟨"AloI", ['G', 'A', 'A', 'C', 'N', 'N', 'N', 'N', 'N', 'N', 'T', 'C', 'C'],
     none⟩]

/-- Resolution of a whole pattern into per-position base sets; none if any
position carries an unsupported code. -/
def resolvePattern : List Char → Option (List (List Char))
  | [] => some []
  | c :: rest =>
    match resolveBase c, resolvePattern rest with
    | some bs, some rest2 => some (bs :: rest2)
    | _, _ => none

/-- A constructed cutter: the enzyme, its resolved per-position base sets
and its resolved cut offset. -/
structure EnzymeCutter where
  enzyme : Enzyme
  baseSets : List (List Char)
  offset : Int
  deriving DecidableEq, Repr

/-- EnzymeCutter.from_name: registry lookup by name; an unknown name or an
enzyme whose pattern or cut position cannot be resolved fails with
UnsupportedEnzyme at construction time. -/
def EnzymeCutter.from_name (name : String) : Except PCError EnzymeCutter :=
  match enzyme_registry.find? (fun e => e.name == name) with
  | none => .error (.unsupportedEnzyme name)
  | some enz =>
    match resolvePattern enz.pattern, enz.cut_offset with
    | some sets, some off => .ok ⟨enz, sets, off⟩
    | _, _ => .error (.unsupportedEnzyme name)

/-- Match test at one position: every pattern position's base set must
contain the (upper-cased) sequence base at that offset, and the pattern
must fit within the sequence. -/
def matchesAt (sets : List (List Char)) (seq : List Char) (i : Nat) : Bool :=
  decide (i + sets.length ≤ seq.length)
  && ((sets.zip ((seq.drop i).take sets.length)).all fun sc =>
       sc.1.contains sc.2.toUpper)

/-- Exhaustive occurrence scan: all candidate positions, overlapping
occurrences included. -/
def findSites (sets : List (List Char)) (seq : List Char) : List Nat :=
  (List.range (seq.length + 1)).filter (matchesAt sets seq)

/-- Base sets of the reverse-complement pattern. -/
def rcSets (sets : List (List Char)) : List (List Char) :=
  (sets.map fun bs => bs.map complementBase).reverse

/-- Palindromic patterns need only one scan. -/
def isPalindromic (sets : List (List Char)) : Bool :=
  rcSets sets == sets

/-- Occurrence positions of the pattern on both strands, in the original
sequence's coordinate space. -/
def searchPositions (sets : List (List Char)) (seq : List Char) : List Nat :=
  let fwd := findSites sets seq
  let rev := if isPalindromic sets then [] else findSites (rcSets sets) seq
  fwd ++ rev

/-- Clamp of an offset cut position into the interval from 0 to the
sequence length. -/
def clampSite (len : Nat) (x : Int) : Nat :=
  min (max x 0).toNat len

/-- Cut sites of a cutter on a sequence: match positions offset by the cut
offset, clamped, deduplicated and sorted ascending. -/
def EnzymeCutter.cut_sites (c : EnzymeCutter) (seq : List Char) : List Nat :=
  let raw := (searchPositions c.baseSets seq).map fun p => (p : Int) + c.offset
  List.insertionSort (· ≤ ·) ((raw.map (clampSite seq.length)).dedup)

/-- EnzymeCutter.get_cut_sites: total on a successfully constructed cutter,
hence always successful. -/
def EnzymeCutter.get_cut_sites (c : EnzymeCutter) (seq : List Char) :
    Except PCError (List Nat) :=
  .ok (c.cut_sites seq)

/-- Monomer sub-read: parent concatemer id, half-open interval into the
parent, sequence slice, sub-read index and total. -/
structure Monomer where
  concatemer_id : String
  start : Nat
  stop : Nat
  sequence : List Char
  subread_idx : Nat
  subread_total : Nat
  deriving DecidableEq, Repr

/-- Python-style slice of a sequence over a half-open interval. -/
def sliceList (seq : List Char) (s e : Nat) : List Char :=
  (seq.drop s).take (e - s)

/-- Boundaries of a digest: zero, the cut sites, the sequence length. -/
def boundariesOf (sites : List Nat) (len : Nat) : List Nat :=
  0 :: (sites ++ [len])

/-- Modelled from the spec: ConcatemerDigester.digest (section 4.3). For
each consecutive boundary pair with positive width a Monomer is emitted
with that interval's slice; the sub-read index is the pair's position in
the boundaries list and the total is the number of emitted monomers. -/
def digest (cid : String) (seq : List Char) (sites : List Nat) : List Monomer :=
  let bs := boundariesOf sites seq.length
  let pairs := bs.zip bs.tail
  let kept := pairs.enum.filter fun ip => decide (ip.2.1 < ip.2.2)
  kept.map fun ip =>
    { concatemer_id := cid, start := ip.2.1, stop := ip.2.2,
      sequence := sliceList seq ip.2.1 ip.2.2,
      subread_idx := ip.1, subread_total := kept.length }

/-- Concatenation of the slices between consecutive boundaries recovers the
tail of the sequence from the first boundary on, provided the boundaries
are nondecreasing and end at the sequence length. -/
theorem flatten_slices (seq : List Char) :
    ∀ (bs : List Nat) (prev : Nat),
      List.Chain (· ≤ ·) prev (bs ++ [seq.length]) →
      (((prev :: (bs ++ [seq.length])).zip (bs ++ [seq.length])).map
        (fun pr => sliceList seq pr.1 pr.2)).flatten = seq.drop prev := by
  intro bs
  induction bs with
  | nil =>
    intro prev hch
    rcases hch with _ | ⟨hle, -⟩
    simp only [List.nil_append, List.zip_cons_cons, List.zip_nil_right,
      List.map_cons, List.map_nil, List.flatten_cons, List.flatten_nil,
      List.append_nil, sliceList]
    rw [List.take_of_length_le]
    rw [List.length_drop]
  | cons b rest ih =>
    intro prev hch
    rcases hch with _ | ⟨hle, hch⟩
    have ihb := ih b hch
    simp only [List.cons_append, List.zip_cons_cons, List.map_cons,
      List.flatten_cons] at ihb ⊢
    rw [ihb, sliceList]
    have hdrop : seq.drop b = (seq.drop prev).drop (b - prev) := by
      rw [List.drop_drop]
      congr 1
      omega
    rw [hdrop, List.take_append_drop]

/-- Skipping the zero-width boundary pairs does not change the
concatenation, because their slices are empty. -/
theorem flatten_filter_pairs (seq : List Char) :
    ∀ pairs : List (Nat × Nat),
      ((pairs.filter fun pr => decide (pr.1 < pr.2)).map
        (fun pr => sliceList seq pr.1 pr.2)).flatten
      = (pairs.map (fun pr => sliceList seq pr.1 pr.2)).flatten := by
  intro pairs
  induction pairs with
  | nil => rfl
  | cons a t ih =>
    by_cases ha : a.1 < a.2
    · simp [List.filter_cons, ha, ih]
    · have hz : a.2 - a.1 = 0 := by omega
      simp only [sliceList] at ih
      simp [List.filter_cons, ha, ih, sliceList, hz]

/-- Enumeration indices are transparent to a filter and map that only look
at the underlying elements. -/
theorem map_filter_enumFrom {β γ : Type} (g : β → γ) (P : β → Bool) :
    ∀ (l : List β) (n : Nat),
      (((List.enumFrom n l).filter fun ip => P ip.2).map fun ip => g ip.2)
      = (l.filter P).map g := by
  intro l
  induction l with
  | nil => intro n; rfl
  | cons x xs ih =>
    intro n
    by_cases hx : P x = true
    · simp [List.enumFrom_cons, List.filter_cons, hx, ih]
    · simp [List.enumFrom_cons, List.filter_cons, hx, ih]

/-- Sequences of the emitted monomers, as slices of the kept boundary
pairs. -/
theorem digest_sequences (cid : String) (seq : List Char)
    (sites : List Nat) :
    (digest cid seq sites).map Monomer.sequence
      = (((boundariesOf sites seq.length).zip (sites ++ [seq.length])).filter
          (fun pr => decide (pr.1 < pr.2))).map
          (fun pr => sliceList seq pr.1 pr.2) := by
  rw [digest]
  simp only [List.map_map]
  have : ((boundariesOf sites seq.length).zip
      (boundariesOf sites seq.length).tail)
      = (boundariesOf sites seq.length).zip (sites ++ [seq.length]) := rfl
  rw [this, List.enum]
  exact map_filter_enumFrom (β := Nat × Nat) (γ := List Char)
    (fun pr => sliceList seq pr.1 pr.2)
    (fun pr => decide (pr.1 < pr.2)) _ 0

/-- Sorted, bounded cut sites give nondecreasing boundaries. -/
theorem chain_boundaries (sites : List Nat) (len : Nat)
    (hs : List.Sorted (· ≤ ·) sites) (hb : ∀ x ∈ sites, x ≤ len) :
    List.Chain (· ≤ ·) 0 (sites ++ [len]) := by
  have hpw : List.Pairwise (· ≤ ·) (0 :: (sites ++ [len])) := by
    rw [List.pairwise_cons]
    refine ⟨fun a _ => Nat.zero_le a, ?_⟩
    rw [List.pairwise_append]
    refine ⟨hs, List.pairwise_singleton _ _, ?_⟩
    intro a ha b hbmem
    simp only [List.mem_singleton] at hbmem
    subst hbmem
    exact hb a ha
  have := List.chain'_iff_pairwise.mpr hpw
  exact this

/-- Cut sites come out sorted ascending. -/
theorem cut_sites_sorted (c : EnzymeCutter) (seq : List Char) :
    List.Sorted (· ≤ ·) (c.cut_sites seq) :=
  List.sorted_insertionSort (· ≤ ·) _

/-- Every cut site is clamped to at most the sequence length. -/
theorem cut_sites_le (c : EnzymeCutter) (seq : List Char) :
    ∀ x ∈ c.cut_sites seq, x ≤ seq.length := by
  intro x hx
  rw [EnzymeCutter.cut_sites] at hx
  have hperm := List.perm_insertionSort (α := Nat) (· ≤ ·)
    ((((searchPositions c.baseSets seq).map fun p => (p : Int) + c.offset).map
      (clampSite seq.length)).dedup)
  have hx2 := hperm.mem_iff.mp hx
  rw [List.mem_dedup] at hx2
  rw [List.mem_map] at hx2
  obtain ⟨y, -, hy⟩ := hx2
  subst hy
  exact min_le_right _ _

/-- C1: for every concatemer sequence and every cutter, digesting the
concatemer at the cutter's cut sites and concatenating the sequences of
the emitted monomers in sub-read-index order reproduces the original
concatemer sequence exactly. -/
theorem digest_roundtrip (c : EnzymeCutter) (cid : String) (seq : List Char)
    (sites : List Nat) (h : c.get_cut_sites seq = .ok sites) :
    ((digest cid seq sites).map Monomer.sequence).flatten = seq := by
  have hsites : sites = c.cut_sites seq := by
    rw [EnzymeCutter.get_cut_sites] at h
    exact (Except.ok.inj h).symm
  have hch : List.Chain (· ≤ ·) 0 (sites ++ [seq.length]) := by
    rw [hsites]
    exact chain_boundaries _ _ (cut_sites_sorted c seq) (cut_sites_le c seq)
  rw [digest_sequences, flatten_filter_pairs]
  have := flatten_slices seq sites 0 hch
  rw [boundariesOf]
  rw [this]
  exact List.drop_zero seq

/-- Concrete EcoRI cutter used by the digest round-trip witness. -/
def ecoRICutter : EnzymeCutter :=
  ⟨⟨"EcoRI", ['G', 'A', 'A', 'T', 'T', 'C'], some 1⟩,
   [['G'], ['A'], ['A'], ['T'], ['T'], ['C']], 1⟩

/-- Witness for C1: the EcoRI cutter cuts AAGAATTCTT at position 3 and the
two monomer slices concatenate back to the input. -/
theorem digest_roundtrip_witness :
    ecoRICutter.get_cut_sites "AAGAATTCTT".toList = .ok [3]
    ∧ ((digest "read1" "AAGAATTCTT".toList [3]).map
        Monomer.sequence).flatten = "AAGAATTCTT".toList :=
  ⟨rfl, digest_roundtrip ecoRICutter "read1" "AAGAATTCTT".toList [3] rfl⟩

/-- C4: for every enzyme name not present in the fixed registry the
UnsupportedEnzyme failure is raised by EnzymeCutter.from_name at
construction time, and get_cut_sites always succeeds on a cutter that was
successfully constructed, so it never raises that error. -/
theorem unsupported_enzyme_spec :
    (∀ name : String, (∀ e ∈ enzyme_registry, e.name ≠ name) →
        EnzymeCutter.from_name name = .error (.unsupportedEnzyme name))
    ∧ ∀ (name : String) (c : EnzymeCutter),
        EnzymeCutter.from_name name = .ok c →
        ∀ seq : List Char, ∃ sites, c.get_cut_sites seq = .ok sites := by
  constructor
  · intro name hno
    rw [EnzymeCutter.from_name]
    have : enzyme_registry.find? (fun e => e.name == name) = none := by
      rw [List.find?_eq_none]
      intro e he
      simpa using hno e he
    rw [this]
  · intro name c _ seq
    exact ⟨c.cut_sites seq, rfl⟩

/-- Witness for C4: the unknown name FooI fails at construction, while the
successfully constructed EcoRI cutter computes cut sites on ACGT without
an error. -/
theorem unsupported_enzyme_witness :
    EnzymeCutter.from_name "FooI" = .error (.unsupportedEnzyme "FooI")
    ∧ ∃ sites, (⟨⟨"EcoRI", ['G', 'A', 'A', 'T', 'T', 'C'], some 1⟩,
        [['G'], ['A'], ['A'], ['T'], ['T'], ['C']], 1⟩ :
          EnzymeCutter).get_cut_sites "ACGT".toList = .ok sites :=
  ⟨unsupported_enzyme_spec.1 "FooI" (by decide),
   unsupported_enzyme_spec.2 "EcoRI" _ rfl "ACGT".toList⟩

/-- Modelled from the spec: the contact annotator (section 4.6) lives in
the aligns module, which is not among the sources. A monomer alignment
record carries its sub-read index and the category derived from its
mapping-status bitmask; a group is the list of one concatemer's records in
original (coordinate) order. -/
structure MonomerAlign where
  subread_idx : Nat
  category : AlignCategory
  deriving DecidableEq, Repr

/-- A monomer alignment counts as mapped when its category is not
unmapped. -/
def isMapped (m : MonomerAlign) : Bool :=
  m.category != AlignCategory.unmapped

/-- Mapped monomers of a group, in original order. -/
def mappedOf (g : List MonomerAlign) : List MonomerAlign :=
  g.filter isMapped

/-- Candidate contact pairs at rank level: every ordered index pair i < j
below n. -/
def allPairs (n : Nat) : List (Nat × Nat) :=
  (List.range n).flatMap fun i =>
    ((List.range n).filter fun j => decide (i < j)).map fun j => (i, j)

/-- Modelled from the spec: a contact is direct iff its endpoints are
adjacent in the ordering of mapped monomers, so at rank level iff the
second rank is the successor of the first. -/
def is_direct (pr : Nat × Nat) : Bool :=
  pr.2 == pr.1 + 1

/-- Placeholder record for out-of-range rank lookups; direct rank pairs
never go out of range. -/
def dummyAlign : MonomerAlign :=
  ⟨0, .unmapped⟩

/-- Direct contacts at rank level over the mapped monomers of a group:
candidate pairs restricted by the direct filter (direct-only mode is a
filter on the candidate pairs, not a different algorithm). -/
def direct_rank_pairs (g : List MonomerAlign) : List (Nat × Nat) :=
  (allPairs (mappedOf g).length).filter is_direct

/-- Direct contacts of a group as monomer pairs: each direct rank pair is
resolved to the mapped monomers at those ranks. Unmapped monomers are
excluded from emission but skipping them does not break adjacency. -/
def direct_contacts (g : List MonomerAlign) :
    List (MonomerAlign × MonomerAlign) :=
  (direct_rank_pairs g).map fun pr =>
    ((mappedOf g).getD pr.1 dummyAlign, (mappedOf g).getD pr.2 dummyAlign)

/-- Filters distribute into flatMap. -/
theorem filter_flatMap {α β : Type} (l : List α) (f : α → List β)
    (p : β → Bool) :
    (l.flatMap f).filter p = l.flatMap fun a => (f a).filter p := by
  induction l with
  | nil => rfl
  | cons x xs ih => simp [List.flatMap_cons, List.filter_append, ih]

/-- flatMap only depends on the function's values on members. -/
theorem flatMap_congr_mem {α β : Type} (l : List α) (f h : α → List β)
    (hfh : ∀ a ∈ l, f a = h a) : l.flatMap f = l.flatMap h := by
  induction l with
  | nil => rfl
  | cons x xs ih =>
    simp only [List.flatMap_cons]
    rw [hfh x (List.mem_cons_self x xs), ih fun a ha =>
      hfh a (List.mem_cons_of_mem x ha)]

/-- flatMap of singletons is a map. -/
theorem flatMap_singleton_map {α β : Type} (l : List α) (h : α → β) :
    (l.flatMap fun a => [h a]) = l.map h := by
  induction l with
  | nil => rfl
  | cons x xs ih => simp [List.flatMap_cons, ih]

/-- Filtering a range for one value keeps exactly that value when it is in
range. -/
theorem filter_range_eq_single (n k : Nat) :
    (List.range n).filter (fun j => j == k) = if k < n then [k] else [] := by
  induction n with
  | zero => simp
  | succ n ih =>
    rw [List.range_succ, List.filter_append, ih]
    by_cases h1 : k < n
    · have h2 : ¬ n = k := by omega
      have h3 : k < n + 1 := by omega
      simp [h1, h2, h3, List.filter_cons]
    · by_cases h2 : n = k
      · subst h2
        simp [h1, List.filter_cons]
      · have h3 : ¬ k < n + 1 := by omega
        simp [h1, h2, h3, List.filter_cons]

/-- The direct pairs among all candidate rank pairs are exactly the
consecutive rank pairs. -/
theorem direct_rank_pairs_form (n : Nat) :
    (allPairs n).filter is_direct
      = (List.range (n - 1)).map fun i => (i, i + 1) := by
  rw [allPairs, filter_flatMap]
  have hstep : ∀ i ∈ List.range n,
      ((((List.range n).filter fun j => decide (i < j)).map
        fun j => (i, j)).filter is_direct)
      = if i + 1 < n then [(i, i + 1)] else [] := by
    intro i _
    rw [List.filter_map]
    have hcomp : (is_direct ∘ fun j => (i, j)) = fun j => j == i + 1 := by
      funext j
      simp [is_direct, Function.comp]
    rw [hcomp, List.filter_filter]
    have hcong : ∀ j ∈ List.range n,
        ((j == i + 1) && decide (i < j)) = (j == i + 1) := by
      intro j _
      by_cases hj : j = i + 1
      · subst hj
        simp
      · simp [hj]
    rw [List.filter_congr hcong, filter_range_eq_single]
    by_cases hi : i + 1 < n
    · simp [hi]
    · simp [hi]
  rw [flatMap_congr_mem _ _ _ hstep]
  cases n with
  | zero => rfl
  | succ m =>
    rw [List.range_succ, List.flatMap_append]
    have hlast : ([m].flatMap fun i =>
        if i + 1 < m + 1 then [(i, i + 1)] else []) = [] := by
      simp
    rw [hlast, List.append_nil]
    have hmem : ∀ i ∈ List.range m,
        (if i + 1 < m + 1 then [(i, i + 1)] else [])
        = [((fun i => (i, i + 1)) i)] := by
      intro i hi
      rw [List.mem_range] at hi
      have hlt : i + 1 < m + 1 := by omega
      simp [hlt]
    rw [flatMap_congr_mem _ _ _ hmem, flatMap_singleton_map]
    simp

/-- Looking up consecutive ranks in a list produces the zip of the list
with its tail. -/
theorem range_map_getD_zip {β : Type} (d : β) :
    ∀ l : List β,
      ((List.range (l.length - 1)).map
        fun i => (l.getD i d, l.getD (i + 1) d))
      = l.zip l.tail := by
  intro l
  induction l with
  | nil => rfl
  | cons x xs ih =>
    cases xs with
    | nil => rfl
    | cons y ys =>
      have h1 : (x :: y :: ys).length - 1 = ys.length + 1 := rfl
      rw [h1, List.range_succ_eq_map, List.map_cons, List.map_map]
      have hcomp : ((fun i => ((x :: y :: ys).getD i d,
          (x :: y :: ys).getD (i + 1) d)) ∘ Nat.succ)
          = fun i => ((y :: ys).getD i d, (y :: ys).getD (i + 1) d) := by
        funext i
        rfl
      rw [hcomp]
      have h2 : (y :: ys).length - 1 = ys.length := rfl
      rw [h2] at ih
      rw [ih]
      rfl

/-- C8: for a group built from N monomers of which M have a mapped
alignment, the direct-only contacts are exactly the consecutive pairs of
mapped monomers in original order, skipping unmapped monomers without
breaking adjacency; their number is M - 1, which is 0 when M is at most
1. -/
theorem direct_contacts_spec (g : List MonomerAlign) :
    direct_contacts g = (mappedOf g).zip (mappedOf g).tail
    ∧ (direct_contacts g).length = (mappedOf g).length - 1
    ∧ ((mappedOf g).length ≤ 1 → (direct_contacts g).length = 0)
    ∧ (1 ≤ (mappedOf g).length
        → (direct_contacts g).length = (mappedOf g).length - 1) := by
  have hform : direct_contacts g
      = (List.range ((mappedOf g).length - 1)).map
          fun i => ((mappedOf g).getD i dummyAlign,
            (mappedOf g).getD (i + 1) dummyAlign) := by
    rw [direct_contacts, direct_rank_pairs, direct_rank_pairs_form,
      List.map_map]
    rfl
  have hzip : direct_contacts g = (mappedOf g).zip (mappedOf g).tail := by
    rw [hform, range_map_getD_zip]
  have hlen : (direct_contacts g).length = (mappedOf g).length - 1 := by
    rw [hform, List.length_map, List.length_range]
  refine ⟨hzip, hlen, fun h1 => ?_, fun _ => hlen⟩
  rw [hlen]
  omega

/-- Concrete four-monomer group with one unmapped monomer, for the
direct-contact witness. -/
def gExample : List MonomerAlign :=
  [⟨0, .primary⟩, ⟨1, .unmapped⟩, ⟨2, .primary⟩, ⟨3, .secondary⟩]

/-- Witness for C8: a group of four monomers with three mapped yields two
direct contacts, connecting the consecutive mapped monomers across the
unmapped one. -/
theorem direct_contacts_witness :
    1 ≤ (mappedOf gExample).length
    ∧ (direct_contacts gExample).length = (mappedOf gExample).length - 1
    ∧ direct_contacts gExample
        = [(⟨0, .primary⟩, ⟨2, .primary⟩), (⟨2, .primary⟩, ⟨3, .secondary⟩)] :=
  ⟨by decide, (direct_contacts_spec gExample).2.2.2 (by decide), by decide⟩

end PoreC
